import Mathlib

/-!
Verification of the rpipe server state persistence, locking, shutdown,
capacity and client backoff logic, shallowly embedded from
`src/rpipe/server/server/state.py`, `src/rpipe/server/server/shutdown_handler.py`,
`src/rpipe/server/util.py` and `src/rpipe/client/client/send.py`.

Bytes are modelled as natural numbers (their ASCII values) and byte strings
as `List Nat`.  Fallible Python code is modelled with `Option`/`Except`.
-/

deriving instance DecidableEq for Except

namespace RPipe

/-- Byte-string literal helper: the ASCII bytes of a Lean string. -/
def lit (s : String) : List Nat := s.toList.map Char.toNat

/-- ASCII decimal digit test (bytes 48-57). -/
def isDigitB (b : Nat) : Bool := 48 ≤ b && b ≤ 57

/-- ASCII whitespace test, as used by Python's `bytes.strip`. -/
def isSpaceB (b : Nat) : Bool := b = 32 || b = 9 || b = 10 || b = 13 || b = 11 || b = 12

/-- Digit-accumulating loop for `natEnc`, structurally recursive on fuel so
that it evaluates inside the kernel. -/
def natEncGo : Nat → Nat → List Nat → List Nat
  | 0, _, acc => acc
  | fuel + 1, n, acc =>
    if n = 0 then acc
    else natEncGo fuel (n / 10) ((n % 10 + 48) :: acc)

/-- Python `str(n).encode()` for a natural number: canonical decimal ASCII. -/
def natEnc (n : Nat) : List Nat :=
  if n = 0 then [48] else natEncGo n n []

theorem natEncGo_eq_digits : ∀ (fuel n : Nat) (acc : List Nat), n ≤ fuel →
    natEncGo fuel n acc = ((Nat.digits 10 n).reverse.map (· + 48)) ++ acc := by
  intro fuel
  induction fuel with
  | zero =>
    intro n acc hn
    interval_cases n
    simp [natEncGo]
  | succ fuel ih =>
    intro n acc hn
    by_cases h0 : n = 0
    · subst h0
      simp [natEncGo]
    · have hdiv : n / 10 ≤ fuel := by
        have := Nat.div_lt_self (Nat.pos_of_ne_zero h0) (by norm_num : 1 < 10)
        omega
      rw [show natEncGo (fuel + 1) n acc
          = natEncGo fuel (n / 10) ((n % 10 + 48) :: acc) by simp [natEncGo, h0]]
      rw [ih (n / 10) ((n % 10 + 48) :: acc) hdiv]
      rw [Nat.digits_def' (by norm_num : 1 < 10) (Nat.pos_of_ne_zero h0)]
      simp

theorem natEnc_eq_digits (n : Nat) :
    natEnc n = if n = 0 then [48] else ((Nat.digits 10 n).reverse.map (· + 48)) := by
  unfold natEnc
  split
  · rfl
  · rw [natEncGo_eq_digits n n [] le_rfl, List.append_nil]

/-- Parse a nonempty all-digit byte string as a natural number; `none` otherwise.
Models Python `int()` applied to a digit string (which raises `ValueError` on
other inputs). -/
def pyDigits (bs : List Nat) : Option Nat :=
  if bs ≠ [] ∧ bs.all isDigitB then some (Nat.ofDigits 10 ((bs.map (· - 48)).reverse))
  else none

/-- Python `int(bytes)` after stripping: optional sign then digits. -/
def pyInt (bs : List Nat) : Option Int :=
  match bs with
  | 45 :: rest => (pyDigits rest).map (fun n => -(n : Int))
  | 43 :: rest => (pyDigits rest).map (fun n => (n : Int))
  | _ => (pyDigits bs).map (fun n => (n : Int))

/-- Python `bytes.strip()`: drop leading and trailing ASCII whitespace. -/
def pyStrip (bs : List Nat) : List Nat :=
  ((bs.dropWhile isSpaceB).reverse.dropWhile isSpaceB).reverse

theorem natEnc_digits : ∀ {n : Nat}, ∀ b ∈ natEnc n, 48 ≤ b ∧ b ≤ 57 := by
  intro n b hb
  rw [natEnc_eq_digits] at hb
  split at hb
  · simp at hb; omega
  · simp only [List.mem_map, List.mem_reverse] at hb
    obtain ⟨d, hd, rfl⟩ := hb
    have := Nat.digits_lt_base (by norm_num) hd
    omega

theorem natEnc_ne_nil (n : Nat) : natEnc n ≠ [] := by
  rw [natEnc_eq_digits]
  split
  · simp
  · simp only [ne_eq, List.map_eq_nil_iff, List.reverse_eq_nil_iff]
    exact Nat.digits_ne_nil_iff_ne_zero.mpr (by assumption)

theorem natEnc_all_digit (n : Nat) : (natEnc n).all isDigitB = true := by
  simp only [List.all_eq_true]
  intro b hb
  have := natEnc_digits b hb
  simp [isDigitB]; omega

theorem pyDigits_natEnc (n : Nat) : pyDigits (natEnc n) = some n := by
  unfold pyDigits
  rw [if_pos ⟨natEnc_ne_nil n, by simpa using natEnc_all_digit n⟩]
  congr 1
  rw [natEnc_eq_digits]
  split
  · subst n; simp [Nat.ofDigits]
  · rw [List.map_map, List.map_reverse, List.reverse_reverse]
    have : ∀ d ∈ Nat.digits 10 n, ((fun x => x - 48) ∘ (fun x => x + 48)) d = id d := by
      intro d _; simp
    rw [List.map_congr_left this, List.map_id]
    exact Nat.ofDigits_digits 10 n

theorem natEnc_not_space : ∀ {n : Nat}, ∀ b ∈ natEnc n, isSpaceB b = false := by
  intro n b hb
  have := natEnc_digits b hb
  simp [isSpaceB]; omega

theorem natEnc_ne_newline {n : Nat} : ∀ b ∈ natEnc n, b ≠ 10 := by
  intro b hb
  have := natEnc_digits b hb
  omega

theorem pyStrip_digits {bs : List Nat} (h : ∀ b ∈ bs, isSpaceB b = false) :
    pyStrip bs = bs := by
  have h1 : bs.dropWhile isSpaceB = bs :=
    List.dropWhile_eq_self_iff.mpr (fun hl => by simpa using h _ (bs.get_mem 0 hl))
  have h2 : bs.reverse.dropWhile isSpaceB = bs.reverse :=
    List.dropWhile_eq_self_iff.mpr
      (fun hl => by simpa using h _ (List.mem_reverse.mp (bs.reverse.get_mem 0 hl)))
  rw [pyStrip, h1, h2, List.reverse_reverse]

theorem pyInt_natEnc (n : Nat) : pyInt (natEnc n) = some (n : Int) := by
  have hd := natEnc_digits (n := n)
  have : pyDigits (natEnc n) = some n := pyDigits_natEnc n
  unfold pyInt
  match hm : natEnc n with
  | [] => exact absurd hm (natEnc_ne_nil n)
  | b :: rest =>
    have hb := hd b (by rw [hm]; exact List.mem_cons_self b rest)
    have hb45 : b ≠ 45 := by omega
    have hb43 : b ≠ 43 := by omega
    rw [hm] at this
    simp only [this]
    cases b with
    | zero => omega
    | succ m => simp_all

/-- Split a byte string at the first occurrence of `sep`; `none` when `sep`
is absent.  Building block of Python's `bytes.split(sep, maxsplit)`. -/
def splitOnce (sep : Nat) : List Nat → Option (List Nat × List Nat)
  | [] => none
  | b :: rest =>
    if b = sep then some ([], rest)
    else (splitOnce sep rest).map (fun p => (b :: p.1, p.2))

/-- Python `bytes.split(b" ", 2)` restricted to the shape `_load` needs:
returns the three parts when at least two separators occur. -/
def split2 (l : List Nat) : Option (List Nat × List Nat × List Nat) :=
  match splitOnce 32 l with
  | none => none
  | some (a, r) =>
    match splitOnce 32 r with
    | none => none
    | some (b, c) => some (a, b, c)

theorem splitOnce_append {sep : Nat} {a : List Nat} (h : sep ∉ a) (r : List Nat) :
    splitOnce sep (a ++ sep :: r) = some (a, r) := by
  induction a with
  | nil => simp [splitOnce]
  | cons x xs ih =>
    have hx : x ≠ sep := fun hx => h (hx ▸ List.mem_cons_self x xs)
    have ihx := ih (fun hm => h (List.mem_cons_of_mem x hm))
    simp [splitOnce, hx, ihx]

theorem split2_eq {a b : List Nat} (ha : 32 ∉ a) (hb : 32 ∉ b) (c : List Nat) :
    split2 (a ++ 32 :: (b ++ 32 :: c)) = some (a, b, c) := by
  simp [split2, splitOnce_append ha, splitOnce_append hb]

/-- A program version, as parsed by the shared `Version` class.

Modelled from the spec: the `shared` package is not under `src/`; per the
spec's version/contract layer, a version is a dotted sequence of decimal
components compared componentwise (lexicographically). -/
structure Version where
  major : Nat
  rest : List Nat
deriving DecidableEq, Repr

/-- Render a version as its dotted decimal byte string (Python `str`/`bytes`
of a `Version`). -/
def verEnc (v : Version) : List Nat :=
  natEnc v.major ++ (v.rest.map (fun n => 46 :: natEnc n)).flatten

/-- Split on a separator byte, producing the full list of parts. -/
def splitSep (sep : Nat) (l : List Nat) : List (List Nat) :=
  l.foldr
    (fun b acc =>
      if b = sep then [] :: acc
      else
        match acc with
        | [] => [[b]]
        | h :: t => (b :: h) :: t)
    [[]]

theorem splitSep_ne_nil (sep : Nat) (l : List Nat) : splitSep sep l ≠ [] := by
  induction l with
  | nil => simp [splitSep]
  | cons x xs ih =>
    simp only [splitSep, List.foldr_cons] at *
    split
    · simp
    · split
      · simp
      · simp

theorem splitSep_no_sep {sep : Nat} {a : List Nat} (h : sep ∉ a) :
    splitSep sep a = [a] := by
  induction a with
  | nil => rfl
  | cons x xs ih =>
    have hx : x ≠ sep := fun hx => h (hx ▸ List.mem_cons_self x xs)
    have ihx := ih (fun hm => h (List.mem_cons_of_mem x hm))
    simp only [splitSep, List.foldr_cons] at *
    rw [if_neg hx, ihx]

theorem splitSep_sep_append {sep : Nat} {a : List Nat} (h : sep ∉ a) (r : List Nat) :
    splitSep sep (a ++ sep :: r) = a :: splitSep sep r := by
  induction a with
  | nil => simp [splitSep]
  | cons x xs ih =>
    have hx : x ≠ sep := fun hx => h (hx ▸ List.mem_cons_self x xs)
    have ihx := ih (fun hm => h (List.mem_cons_of_mem x hm))
    simp only [List.cons_append, splitSep, List.foldr_cons] at *
    rw [if_neg hx, ihx]

/-- Parse every dot-separated part as a decimal number. -/
def parseParts : List (List Nat) → Option (List Nat)
  | [] => some []
  | p :: ps =>
    match pyDigits p, parseParts ps with
    | some n, some ns => some (n :: ns)
    | _, _ => none

/-- Parse a dotted decimal byte string as a `Version`; `none` models the
parse error Python's `Version` constructor raises on other inputs. -/
def verDec (l : List Nat) : Option Version :=
  match parseParts (splitSep 46 l) with
  | some (h :: t) => some ⟨h, t⟩
  | _ => none

theorem verEnc_bytes : ∀ {v : Version}, ∀ b ∈ verEnc v, (48 ≤ b ∧ b ≤ 57) ∨ b = 46 := by
  intro v b hb
  unfold verEnc at hb
  rcases List.mem_append.mp hb with h | h
  · exact Or.inl (natEnc_digits b h)
  · simp only [List.mem_flatten, List.mem_map] at h
    obtain ⟨l, ⟨n, _, rfl⟩, hm⟩ := h
    rcases hm with _ | hm
    · exact Or.inr rfl
    · rename_i hm
      exact Or.inl (natEnc_digits b hm)

theorem verDec_verEnc (v : Version) : verDec (verEnc v) = some v := by
  obtain ⟨major, rest⟩ := v
  have h46 : ∀ m : Nat, 46 ∉ natEnc m := by
    intro m hm
    have := natEnc_digits 46 hm
    omega
  have key : splitSep 46 (verEnc ⟨major, rest⟩) = natEnc major :: rest.map natEnc := by
    unfold verEnc
    induction rest generalizing major with
    | nil => simpa using splitSep_no_sep (h46 major)
    | cons n ns ih =>
      have step : natEnc major ++ ((n :: ns).map (fun m => 46 :: natEnc m)).flatten
          = natEnc major ++ 46 :: (natEnc n ++ (ns.map (fun m => 46 :: natEnc m)).flatten) := by
        simp
      rw [step, splitSep_sep_append (h46 major), ih n, List.map_cons]
  unfold verDec
  rw [key]
  have hmap : ∀ (xs : List Nat), parseParts (xs.map natEnc) = some xs := by
    intro xs
    induction xs with
    | nil => rfl
    | cons y ys ihy => simp [parseParts, pyDigits_natEnc, ihy]
  simp [parseParts, pyDigits_natEnc, hmap]

/-- Strict lexicographic comparison of equal-meaning component lists; the
`<` of the shared `Version` class (modelled from the spec). -/
def listLtB : List Nat → List Nat → Bool
  | [], [] => false
  | [], _ :: _ => true
  | _ :: _, [] => false
  | a :: as, b :: bs => if a < b then true else if b < a then false else listLtB as bs

/-- Version comparison `x < y`. -/
def verLt (x y : Version) : Bool :=
  listLtB (x.major :: x.rest) (y.major :: y.rest)

/-- Minimum snapshot format version accepted by `_load`
(`MIN_SAVE_STATE_VERSION = Version("8.1.0")` in `state.py`). -/
def MIN_SAVE_STATE_VERSION : Version := ⟨8, [1, 0]⟩

/-- The running program's version (`shared.version`).

Modelled from the spec: the `shared` package is not under `src/`; the exact
value is immaterial, any version at or above `MIN_SAVE_STATE_VERSION`
behaves identically. -/
def version : Version := ⟨9, [0, 0]⟩

/-- An in-memory stream record.

Modelled from the spec: `stream.py` is not under `src/`; fields follow the
spec's Stream data model (`version`, `encrypted`, `expire`, `stream_id`,
`reader_id`, `data`, `final`, `locked`, `upload_complete`).  The opaque
`stream_id`/`reader_id` identifiers are modelled as numbers. -/
structure Stream where
  version : Version
  encrypted : Bool
  expire : Nat
  stream_id : Nat
  reader_id : Option Nat
  data : List (List Nat)
  final : Bool
  locked : Bool
  upload_complete : Bool
deriving DecidableEq, Repr

/-- The non-`data` fields of a `Stream`: what `asdict(s)` minus `data`
serializes into the snapshot's JSON metadata. -/
structure MetaF where
  version : Version
  encrypted : Bool
  expire : Nat
  stream_id : Nat
  reader_id : Option Nat
  final : Bool
  locked : Bool
  upload_complete : Bool
deriving DecidableEq, Repr

def Stream.meta (s : Stream) : MetaF :=
  ⟨s.version, s.encrypted, s.expire, s.stream_id, s.reader_id, s.final, s.locked,
    s.upload_complete⟩

/-- Rebuild a `Stream` from parsed metadata and block data
(`Stream(**body)` in `_load`). -/
def MetaF.toStream (m : MetaF) (data : List (List Nat)) : Stream :=
  ⟨m.version, m.encrypted, m.expire, m.stream_id, m.reader_id, data, m.final, m.locked,
    m.upload_complete⟩

/-- JSON rendering of a boolean. -/
def boolEnc (b : Bool) : List Nat := if b then lit "true" else lit "false"

/-- The JSON metadata bytes written by `_save` for one stream:
`json.dumps(asdict(s) minus data, default=str)`.

Modelled from the spec: `json_metadata` contains the fields of `Stream`
excluding `data`, with `version` as a dotted string; rendered as compact
JSON in dataclass field order. -/
def encodeMeta (m : MetaF) : List Nat :=
  lit "\x7b\"version\":\"" ++ verEnc m.version ++
  lit "\",\"encrypted\":" ++ boolEnc m.encrypted ++
  lit ",\"expire\":" ++ natEnc m.expire ++
  lit ",\"stream_id\":" ++ natEnc m.stream_id ++
  lit ",\"reader_id\":" ++ (match m.reader_id with
    | none => lit "null"
    | some r => natEnc r) ++
  lit ",\"final\":" ++ boolEnc m.final ++
  lit ",\"locked\":" ++ boolEnc m.locked ++
  lit ",\"upload_complete\":" ++ boolEnc m.upload_complete ++
  lit "\x7d"

/-- Consume an expected literal from the front of a byte string. -/
def expectLit : List Nat → List Nat → Option (List Nat)
  | [], l => some l
  | _ :: _, [] => none
  | p :: ps, b :: bs => if b = p then expectLit ps bs else none

/-- Parse a JSON boolean literal. -/
def parseBool (l : List Nat) : Option (Bool × List Nat) :=
  match expectLit (lit "true") l with
  | some r => some (true, r)
  | none =>
    match expectLit (lit "false") l with
    | some r => some (false, r)
    | none => none

/-- Parse a run of decimal digits as a JSON number. -/
def parseNatTok (l : List Nat) : Option (Nat × List Nat) :=
  let d := l.takeWhile isDigitB
  match pyDigits d with
  | some n => some (n, l.drop d.length)
  | none => none

/-- Parse a quoted dotted version up to the closing quote (the quote is left
in the remainder). -/
def parseVer (l : List Nat) : Option (Version × List Nat) :=
  let vb := l.takeWhile (fun b => ¬ b = 34)
  match verDec vb with
  | some v => some (v, l.drop vb.length)
  | none => none

/-- Parse a JSON `null` or number for the optional reader identifier. -/
def parseReader (l : List Nat) : Option (Option Nat × List Nat) :=
  match expectLit (lit "null") l with
  | some r => some (none, r)
  | none => (parseNatTok l).map (fun p => (some p.1, p.2))

/-- Parse the snapshot's JSON stream metadata (`json.loads(main[2])` followed
by `Stream(**body)` field validation in `_load`); `none` models the raised
decode/type error.

Modelled from the spec: inverse of `encodeMeta`'s compact JSON schema. -/
def decodeMetaB (ver : Version) (enc : Bool) (expire sid : Nat)
    (rid : Option Nat) (l : List Nat) : Option MetaF :=
  (expectLit (lit ",\"final\":") l).bind fun l6 =>
  (parseBool l6).bind fun pf =>
  (expectLit (lit ",\"locked\":") pf.2).bind fun l7 =>
  (parseBool l7).bind fun pk =>
  (expectLit (lit ",\"upload_complete\":") pk.2).bind fun l8 =>
  (parseBool l8).bind fun pu =>
  (expectLit (lit "\x7d") pu.2).bind fun l9 =>
  match l9 with
  | [] => some ⟨ver, enc, expire, sid, rid, pf.1, pk.1, pu.1⟩
  | _ => none

def decodeMeta (l : List Nat) : Option MetaF :=
  (expectLit (lit "\x7b\"version\":\"") l).bind fun l1 =>
  (parseVer l1).bind fun pv =>
  (expectLit (lit "\",\"encrypted\":") pv.2).bind fun l2 =>
  (parseBool l2).bind fun pe =>
  (expectLit (lit ",\"expire\":") pe.2).bind fun l3 =>
  (parseNatTok l3).bind fun px =>
  (expectLit (lit ",\"stream_id\":") px.2).bind fun l4 =>
  (parseNatTok l4).bind fun ps =>
  (expectLit (lit ",\"reader_id\":") ps.2).bind fun l5 =>
  (parseReader l5).bind fun pr =>
  decodeMetaB pv.1 pe.1 px.1 ps.1 pr.1 pr.2

theorem expectLit_append (pat r : List Nat) : expectLit pat (pat ++ r) = some r := by
  induction pat with
  | nil => rfl
  | cons p ps ih => simp [expectLit, ih]

theorem expectLit_self (p : List Nat) : expectLit p p = some [] := by
  have h := expectLit_append p []
  rwa [List.append_nil] at h

theorem takeWhile_append_eq {p : Nat → Bool} {a r : List Nat}
    (ha : ∀ b ∈ a, p b = true) (hr : ∀ c, r.head? = some c → p c = false) :
    (a ++ r).takeWhile p = a := by
  induction a with
  | nil =>
    cases r with
    | nil => rfl
    | cons c cs => simp [List.takeWhile_cons, hr c rfl]
  | cons x xs ih =>
    have hx := ha x (List.mem_cons_self x xs)
    simp only [List.cons_append, List.takeWhile_cons, hx, if_true]
    rw [ih (fun b hb => ha b (List.mem_cons_of_mem x hb))]

theorem parseVer_enc (v : Version) (r : List Nat) (hr : r.head? = some 34) :
    parseVer (verEnc v ++ r) = some (v, r) := by
  have hvb : (verEnc v ++ r).takeWhile (fun b => ¬ b = 34) = verEnc v := by
    apply takeWhile_append_eq
    · intro b hb
      rcases verEnc_bytes b hb with h | h <;> simp <;> omega
    · intro c hc
      rw [hr] at hc
      simp at hc
      simp [hc]
  unfold parseVer
  simp only [hvb, verDec_verEnc, List.drop_left]

theorem parseBool_enc (b : Bool) (r : List Nat) : parseBool (boolEnc b ++ r) = some (b, r) := by
  cases b with
  | true => simp [parseBool, boolEnc, expectLit_append]
  | false =>
    have hne : expectLit (lit "true") (lit "false" ++ r) = none := by
      simp [lit, expectLit]
    simp [parseBool, boolEnc, hne, expectLit_append]

theorem parseNatTok_enc (n : Nat) {r : List Nat}
    (hr : ∀ c, r.head? = some c → isDigitB c = false) :
    parseNatTok (natEnc n ++ r) = some (n, r) := by
  have hd : (natEnc n ++ r).takeWhile isDigitB = natEnc n :=
    takeWhile_append_eq (fun b hb => by simpa using (List.all_eq_true.mp (natEnc_all_digit n)) b hb) hr
  unfold parseNatTok
  simp only [hd, pyDigits_natEnc, List.drop_left]

theorem parseReader_none (r : List Nat) : parseReader (lit "null" ++ r) = some (none, r) := by
  simp [parseReader, expectLit_append]

theorem parseReader_some (n : Nat) {r : List Nat}
    (hr : ∀ c, r.head? = some c → isDigitB c = false) :
    parseReader (natEnc n ++ r) = some (some n, r) := by
  have hne : expectLit (lit "null") (natEnc n ++ r) = none := by
    match hm : natEnc n with
    | [] => exact absurd hm (natEnc_ne_nil n)
    | b :: bs =>
      have hb := natEnc_digits b (by rw [hm]; exact List.mem_cons_self b bs)
      have : b ≠ 110 := by omega
      simp [lit, expectLit, this]
  simp [parseReader, hne, parseNatTok_enc n hr]

theorem head_not_digit {c₀ : Nat} (hc₀ : isDigitB c₀ = false) {r : List Nat} :
    ∀ c, (c₀ :: r).head? = some c → isDigitB c = false := by
  intro c hc
  simp only [List.head?_cons, Option.some.injEq] at hc
  rwa [← hc]

theorem parseVer_encd (v : Version) (r : List Nat) :
    parseVer (verEnc v ++ (lit "\",\"encrypted\":" ++ r)) =
      some (v, lit "\",\"encrypted\":" ++ r) :=
  parseVer_enc v _ rfl

theorem parseNatTok_sid (n : Nat) (r : List Nat) :
    parseNatTok (natEnc n ++ (lit ",\"stream_id\":" ++ r)) =
      some (n, lit ",\"stream_id\":" ++ r) :=
  parseNatTok_enc n (head_not_digit (by decide))

theorem parseNatTok_rid (n : Nat) (r : List Nat) :
    parseNatTok (natEnc n ++ (lit ",\"reader_id\":" ++ r)) =
      some (n, lit ",\"reader_id\":" ++ r) :=
  parseNatTok_enc n (head_not_digit (by decide))

theorem parseReader_final (rid : Option Nat) (r : List Nat) :
    parseReader ((match rid with
      | none => lit "null"
      | some n => natEnc n) ++ (lit ",\"final\":" ++ r)) =
      some (rid, lit ",\"final\":" ++ r) := by
  cases rid with
  | none => exact parseReader_none _
  | some n => exact parseReader_some n (head_not_digit (by decide))

theorem decodeMetaB_enc (v : Version) (e : Bool) (x sid : Nat) (rid : Option Nat)
    (f lk up : Bool) :
    decodeMetaB v e x sid rid
      (lit ",\"final\":" ++ (boolEnc f ++ (lit ",\"locked\":" ++ (boolEnc lk ++
        (lit ",\"upload_complete\":" ++ (boolEnc up ++ lit "\x7d")))))) =
      some ⟨v, e, x, sid, rid, f, lk, up⟩ := by
  unfold decodeMetaB
  rw [expectLit_append]
  simp only [Option.some_bind]
  rw [parseBool_enc]
  simp only [Option.some_bind]
  rw [expectLit_append]
  simp only [Option.some_bind]
  rw [parseBool_enc]
  simp only [Option.some_bind]
  rw [expectLit_append]
  simp only [Option.some_bind]
  rw [parseBool_enc]
  simp only [Option.some_bind]
  rw [expectLit_self]
  simp only [Option.some_bind]

theorem decodeMeta_encodeMeta (m : MetaF) : decodeMeta (encodeMeta m) = some m := by
  obtain ⟨v, e, x, sid, rid, f, lk, up⟩ := m
  unfold decodeMeta encodeMeta
  simp only [List.append_assoc]
  rw [expectLit_append]
  simp only [Option.some_bind]
  rw [parseVer_encd]
  simp only [Option.some_bind]
  rw [expectLit_append]
  simp only [Option.some_bind]
  rw [parseBool_enc]
  simp only [Option.some_bind]
  rw [expectLit_append]
  simp only [Option.some_bind]
  rw [parseNatTok_sid]
  simp only [Option.some_bind]
  rw [expectLit_append]
  simp only [Option.some_bind]
  rw [parseNatTok_rid]
  simp only [Option.some_bind]
  rw [expectLit_append]
  simp only [Option.some_bind]
  rw [parseReader_final]
  simp only [Option.some_bind]
  exact decodeMetaB_enc v e x sid rid f lk up

/-- Failure cases raised while parsing a snapshot file. -/
inductive LoadErr
  | intParse
  | noNewline
  | hang
  | badVersion
  | badMeta
  | indexError
deriving DecidableEq, Repr

/-- Python `f.readline()`: the bytes up to and including the first newline
(without one at end of file), plus the unread remainder. -/
def pyReadline (f : List Nat) : List Nat × List Nat :=
  let content := f.takeWhile (fun b => ¬ b = 10)
  if f.length = content.length then (content, [])
  else (content ++ [10], f.drop (content.length + 1))

/-- The `_writeline` helper of `state.py`: decimal length prefix, newline,
payload, newline. -/
def _writeline (s : List Nat) : List Nat :=
  natEnc s.length ++ [10] ++ s ++ [10]

/-- The `_readline` helper of `state.py`.  `intParse` models the
`ValueError` from `int()`, `noNewline` the explicit
`ValueError("Expected newline")`, and `hang` the case where fewer than
`size` bytes remain: there Python's `f.read` returns empty bytes at end of
file and the `while len(ret) < size` loop never terminates. -/
def _readline (f : List Nat) : Except LoadErr (List Nat × List Nat) :=
  let p := pyReadline f
  match pyInt (pyStrip p.1) with
  | none => .error .intParse
  | some size =>
    if p.2.length < size.toNat then .error .hang
    else
      match p.2.drop size.toNat with
      | 10 :: f3 => .ok (p.2.take size.toNat, f3)
      | _ => .error .noNewline

theorem pyReadline_eq {a : List Nat} (h : 10 ∉ a) (r : List Nat) :
    pyReadline (a ++ 10 :: r) = (a ++ [10], r) := by
  have hc : (a ++ 10 :: r).takeWhile (fun b => ¬ b = 10) = a := by
    apply takeWhile_append_eq
    · intro b hb
      simp only [decide_eq_true_eq]
      exact fun hb10 => h (hb10 ▸ hb)
    · intro c hc
      simp only [List.head?_cons, Option.some.injEq] at hc
      simp [← hc]
  unfold pyReadline
  rw [hc]
  have hlen : (a ++ 10 :: r).length ≠ a.length := by
    simp [List.length_append]
  rw [if_neg hlen]
  have hdrop : (a ++ 10 :: r).drop (a.length + 1) = r := by
    have : a ++ 10 :: r = (a ++ [10]) ++ r := by simp
    rw [this, List.drop_left' (by simp)]
  rw [hdrop]

theorem pyStrip_append_newline {a : List Nat} (h : ∀ b ∈ a, isSpaceB b = false) :
    pyStrip (a ++ [10]) = a := by
  cases a with
  | nil => rfl
  | cons b bs =>
    have hb : isSpaceB b = false := h b (List.mem_cons_self b bs)
    have hrev : ∀ c ∈ (b :: bs).reverse, isSpaceB c = false := by
      intro c hcm
      exact h c (List.mem_reverse.mp hcm)
    unfold pyStrip
    rw [List.cons_append, List.dropWhile_cons, hb]
    simp only [Bool.false_eq_true, if_false]
    rw [show ((b :: (bs ++ [10])).reverse : List Nat) = 10 :: (b :: bs).reverse by simp,
      List.dropWhile_cons]
    rw [show isSpaceB 10 = true from rfl]
    simp only [if_true]
    rw [List.dropWhile_eq_self_iff.mpr
      (fun hl => by simpa using hrev _ (List.get_mem _ 0 hl)), List.reverse_reverse]

theorem readline_writeline (s rest : List Nat) :
    _readline (_writeline s ++ rest) = .ok (s, rest) := by
  have harr : _writeline s ++ rest = natEnc s.length ++ 10 :: (s ++ 10 :: rest) := by
    unfold _writeline
    simp
  have h10 : 10 ∉ natEnc s.length := fun hm => natEnc_ne_newline 10 hm rfl
  unfold _readline
  rw [harr, pyReadline_eq h10]
  simp only
  rw [pyStrip_append_newline (fun b hb => natEnc_not_space b hb), pyInt_natEnc]
  simp only [Int.toNat_ofNat]
  have hlen : ¬ (s ++ 10 :: rest).length < s.length := by
    simp [List.length_append]
  rw [if_neg hlen, List.drop_left, List.take_left]

/-- A channel map, as Python's insertion-ordered `dict[str, Stream]`
(names kept as their UTF-8 bytes). -/
abbrev StreamMap := List (List Nat × Stream)

/-- Python dict assignment `m[k] = v`: replace in place or append. -/
def dictInsert (m : StreamMap) (k : List Nat) (v : Stream) : StreamMap :=
  if m.any (fun p => p.1 = k) then m.map (fun p => if p.1 = k then (k, v) else p)
  else m ++ [(k, v)]

/-- Server statistics.

Modelled from the spec: the shared `Stats` class is not under `src/`; per
the spec it holds global and per-channel counters, all zero when freshly
constructed, and is never persisted. -/
structure Stats where
  bytes_in : Nat
  bytes_out : Nat
  channels : List (List Nat × Nat)
deriving DecidableEq, Repr

def Stats.init : Stats := ⟨0, 0, []⟩

/-- A fresh `Stats()` after `load` touches `stats.channels[i]` for every
stream name: zeroed global counters and a zeroed entry per channel. -/
def Stats.freshFor (keys : List (List Nat)) : Stats :=
  ⟨0, 0, keys.map (fun k => (k, 0))⟩

/-- The `UnlockedState` of `state.py`: streams map, shutdown flag, stats. -/
structure UnlockedState where
  streams : StreamMap
  shutdown : Bool
  stats : Stats
deriving DecidableEq, Repr

/-- `UnlockedState.__init__`. -/
def UnlockedState.init : UnlockedState := ⟨[], false, Stats.init⟩

/-- Bytes of one stream's snapshot record as `_save` writes it: the header
line `"{name} {len(deq)} " + json` then each block, all length-prefixed. -/
def streamChunk (name : List Nat) (s : Stream) : List Nat :=
  _writeline (name ++ [32] ++ natEnc s.data.length ++ [32] ++ encodeMeta s.meta)
  ++ (s.data.map _writeline).flatten

/-- The full snapshot bytes `_save` writes: version line, stream count,
then each stream's records. -/
def saveBytes (streams : StreamMap) : List Nat :=
  verEnc version ++ [10]
  ++ _writeline (natEnc streams.length)
  ++ (streams.map (fun p => streamChunk p.1 p.2)).flatten

/-- Failure of `UnlockedState.save`. -/
inductive SaveErr
  | notShutdown
deriving DecidableEq, Repr

/-- `UnlockedState.save`: refuse (RuntimeError) unless the shutdown flag is
set, else write the snapshot (the file is replaced if it exists). -/
def UnlockedState.save (s : UnlockedState) : Except SaveErr (List Nat) :=
  if ¬ s.shutdown then .error .notShutdown
  else .ok (saveBytes s.streams)

/-- The per-stream loop of `_load`: read a header line, split it on the
first two spaces, decode the JSON metadata, read `int(main[1])` blocks,
store the stream, repeat.  Errors carry the partially rebuilt map (the
Python exception propagates with `self.streams` already holding the
streams parsed so far). -/
def loadStreams : Nat → List Nat → StreamMap → Except (LoadErr × StreamMap) (StreamMap × List Nat)
  | 0, f, acc => .ok (acc, f)
  | n + 1, f, acc =>
    match _readline f with
    | .error e => .error (e, acc)
    | .ok (main, f1) =>
      match split2 main with
      | none => .error (.indexError, acc)
      | some (name, cntB, metaB) =>
        match decodeMeta metaB with
        | none => .error (.badMeta, acc)
        | some mf =>
          match pyInt (pyStrip cntB) with
          | none => .error (.intParse, acc)
          | some cnt =>
            match loadBlocks cnt.toNat f1 with
            | .error e => .error (e, acc)
            | .ok (blocks, f2) =>
              loadStreams n f2 (dictInsert acc name (mf.toStream blocks))
where
  /-- `deque(_readline(f) for _ in range(k))`. -/
  loadBlocks : Nat → List Nat → Except LoadErr (List (List Nat) × List Nat)
    | 0, f => .ok ([], f)
    | n + 1, f =>
      match _readline f with
      | .error e => .error e
      | .ok (b, f1) =>
        match loadBlocks n f1 with
        | .error e => .error e
        | .ok (bs, f2) => .ok (b :: bs, f2)

/-- `UnlockedState._load`: reset the map, gate on the leading version line,
then parse every stream.  `.ok none` is the `return False` path (version
too old); errors model propagating exceptions. -/
def _load (f : List Nat) : Except (LoadErr × StreamMap) (Option StreamMap) :=
  let p := pyReadline f
  match verDec p.1.dropLast with
  | none => .error (.badVersion, [])
  | some ver =>
    if verLt ver MIN_SAVE_STATE_VERSION then .ok none
    else
      match _readline p.2 with
      | .error e => .error (e, [])
      | .ok (cnt, f2) =>
        match pyInt (pyStrip cnt) with
        | none => .error (.intParse, [])
        | some n =>
          match loadStreams n.toNat f2 [] with
          | .error ep => .error ep
          | .ok (m, _) => .ok (some m)

/-- Failure of `UnlockedState.load`: the explicit `RuntimeError` on a
non-empty map, or a propagated parse exception. -/
inductive LoadFailure
  | runtimeError
  | parse (e : LoadErr)
deriving DecidableEq, Repr

/-- `UnlockedState.load`: refuse on an existing non-empty map; treat a
missing file as empty state; run `_load`; on success build fresh stats
touched for every loaded channel.  Error results carry the state the
Python object is left with when the exception propagates. -/
def UnlockedState.load (s : UnlockedState) (file : Option (List Nat)) :
    Except (LoadFailure × UnlockedState) UnlockedState :=
  if s.streams ≠ [] then .error (.runtimeError, s)
  else
    match file with
    | none => .ok s
    | some f =>
      match _load f with
      | .error (e, part) => .error (.parse e, { s with streams := part })
      | .ok none => .ok { s with streams := [] }
      | .ok (some m) => .ok { s with streams := m, stats := Stats.freshFor (m.map Prod.fst) }

theorem meta_toStream (s : Stream) : s.meta.toStream s.data = s := by
  cases s
  rfl

theorem loadBlocks_enc (blocks : List (List Nat)) (rest : List Nat) :
    loadStreams.loadBlocks blocks.length ((blocks.map _writeline).flatten ++ rest) =
      .ok (blocks, rest) := by
  induction blocks generalizing rest with
  | nil => simp [loadStreams.loadBlocks]
  | cons b bs ih =>
    show loadStreams.loadBlocks (bs.length + 1) _ = _
    simp only [List.map_cons, List.flatten_cons, List.append_assoc]
    rw [loadStreams.loadBlocks, readline_writeline]
    dsimp only
    rw [ih]

/-- Repeated Python dict assignment, left to right. -/
def insertAll (acc : StreamMap) (xs : StreamMap) : StreamMap :=
  xs.foldl (fun a p => dictInsert a p.1 p.2) acc

theorem dictInsert_append {m : StreamMap} {k : List Nat} (h : ∀ p ∈ m, p.1 ≠ k)
    (v : Stream) : dictInsert m k v = m ++ [(k, v)] := by
  have hany : m.any (fun p => p.1 = k) = false := by
    rw [List.any_eq_false]
    intro p hp
    simpa using h p hp
  simp [dictInsert, hany]

theorem insertAll_eq_append {xs : StreamMap} : ∀ {acc : StreamMap},
    (∀ p ∈ xs, ∀ q ∈ acc, q.1 ≠ p.1) → (xs.map Prod.fst).Nodup →
    insertAll acc xs = acc ++ xs := by
  induction xs with
  | nil => intro acc _ _; simp [insertAll]
  | cons p ps ih =>
    intro acc hdis hnd
    have hstep : dictInsert acc p.1 p.2 = acc ++ [p] := by
      rw [dictInsert_append (fun q hq => hdis p (List.mem_cons_self p ps) q hq)]
    have hnd0 : (p.1 :: ps.map Prod.fst).Nodup := by simpa using hnd
    have hnd' : (ps.map Prod.fst).Nodup := (List.nodup_cons.mp hnd0).2
    have hhead : ∀ r ∈ ps, p.1 ≠ r.1 := by
      intro r hr heq
      exact (List.nodup_cons.mp hnd0).1 (heq ▸ List.mem_map_of_mem Prod.fst hr)
    have hdis' : ∀ r ∈ ps, ∀ q ∈ acc ++ [p], q.1 ≠ r.1 := by
      intro r hr q hq
      rcases List.mem_append.mp hq with hq | hq
      · exact hdis r (List.mem_cons_of_mem p hr) q hq
      · rcases List.mem_singleton.mp hq with rfl
        exact hhead r hr
    show insertAll (dictInsert acc p.1 p.2) ps = acc ++ p :: ps
    rw [hstep, ih hdis' hnd']
    simp

theorem loadStreams_enc (xs : StreamMap) : ∀ (rest : List Nat) (acc : StreamMap),
    (∀ p ∈ xs, 32 ∉ p.1) →
    loadStreams xs.length ((xs.map (fun p => streamChunk p.1 p.2)).flatten ++ rest) acc =
      .ok (insertAll acc xs, rest) := by
  induction xs with
  | nil => intro rest acc _; simp [loadStreams, insertAll]
  | cons p ps ih =>
    intro rest acc hname
    have hn32 : 32 ∉ p.1 := hname p (List.mem_cons_self p ps)
    have hc32 : 32 ∉ natEnc p.2.data.length := fun hm => by
      have := natEnc_digits 32 hm; omega
    show loadStreams (ps.length + 1) _ _ = _
    simp only [List.map_cons, List.flatten_cons, List.append_assoc]
    have hchunk : streamChunk p.1 p.2 ++ ((ps.map (fun q => streamChunk q.1 q.2)).flatten ++ rest)
        = _writeline (p.1 ++ 32 :: (natEnc p.2.data.length ++ 32 :: encodeMeta p.2.meta)) ++
          ((p.2.data.map _writeline).flatten ++
            ((ps.map (fun q => streamChunk q.1 q.2)).flatten ++ rest)) := by
      simp [streamChunk]
    rw [hchunk, loadStreams, readline_writeline]
    dsimp only
    rw [split2_eq hn32 hc32]
    dsimp only
    rw [decodeMeta_encodeMeta]
    dsimp only
    rw [pyStrip_digits (fun b hb => natEnc_not_space b hb), pyInt_natEnc]
    dsimp only
    simp only [Int.toNat_ofNat]
    rw [loadBlocks_enc p.2.data _]
    dsimp only
    rw [meta_toStream]
    exact ih rest (dictInsert acc p.1 p.2) (fun q hq => hname q (List.mem_cons_of_mem p hq))

theorem verEnc_no_newline (v : Version) : 10 ∉ verEnc v := by
  intro hm
  rcases verEnc_bytes 10 hm with h | h <;> omega

theorem load_saveBytes (xs : StreamMap) (hname : ∀ p ∈ xs, 32 ∉ p.1) :
    _load (saveBytes xs) = .ok (some (insertAll [] xs)) := by
  have harr : saveBytes xs = verEnc version ++ 10 ::
      (_writeline (natEnc xs.length) ++ (xs.map (fun p => streamChunk p.1 p.2)).flatten) := by
    unfold saveBytes
    simp
  unfold _load
  rw [harr, pyReadline_eq (verEnc_no_newline version)]
  simp only [List.dropLast_concat, verDec_verEnc]
  rw [show verLt version MIN_SAVE_STATE_VERSION = false from rfl]
  simp only [Bool.false_eq_true, if_false]
  rw [readline_writeline]
  simp only
  rw [pyStrip_digits (fun b hb => natEnc_not_space b hb), pyInt_natEnc]
  simp only [Int.toNat_ofNat]
  rw [show (xs.map (fun p => streamChunk p.1 p.2)).flatten
      = (xs.map (fun p => streamChunk p.1 p.2)).flatten ++ [] by simp]
  rw [loadStreams_enc xs [] [] hname]

theorem insertAll_nil {xs : StreamMap} (hnd : (xs.map Prod.fst).Nodup) :
    insertAll [] xs = xs := by
  rw [insertAll_eq_append (fun p _ q hq => absurd hq (List.not_mem_nil q)) hnd]
  rfl

/-- The `State` wrapper of `state.py`: a reentrant mutex (modelled by its
recursion depth) guarding an `UnlockedState`. -/
structure StateW where
  lock : Nat
  state : UnlockedState
deriving DecidableEq, Repr

/-- `State.__enter__`: acquire the lock; if the server is shut down,
release it and raise `ServerShutdown` (the error result carries the
`State` after the release); otherwise hand out the state. -/
def State.enter (st : StateW) : Except StateW (StateW × UnlockedState) :=
  let acquired : StateW := { st with lock := st.lock + 1 }
  if acquired.state.shutdown then .error { acquired with lock := acquired.lock - 1 }
  else .ok (acquired, acquired.state)

/-- `State.__exit__`: release the lock unconditionally (it runs whether the
body returned or raised). -/
def State.exit (st : StateW) : StateW :=
  { st with lock := st.lock - 1 }

/-- Failures of the shutdown handler body. -/
inductive SdErr
  | serverShutdown
  | saveError
deriving DecidableEq, Repr

/-- `ShutdownHandler._shutdown`: under `with self._state`, raise
`ServerShutdown` if already shut down, else set the flag and save.  Errors
carry the `State` after the `with` block released the lock (a
`ServerShutdown` raised by `__enter__` itself releases inside `__enter__`). -/
def ShutdownHandler.shutdownRun (st : StateW) : Except (SdErr × StateW) (StateW × List Nat) :=
  match State.enter st with
  | .error st' => .error (.serverShutdown, st')
  | .ok (st1, s) =>
    if s.shutdown then .error (.serverShutdown, State.exit st1)
    else
      let s' := { s with shutdown := true }
      match s'.save with
      | .error _ => .error (.saveError, State.exit { st1 with state := s' })
      | .ok bytes => .ok (State.exit { st1 with state := s' }, bytes)

/-- Effect of a process-exit call. `code` is the argument passed to
`sys.exit`; `runsExitHooks` records that `sys.exit` raises `SystemExit`,
a normal interpreter exit on which registered `atexit` hooks run. -/
structure ExitEffect where
  code : Nat
  runsExitHooks : Bool
deriving DecidableEq, Repr

/-- The SIGTERM handler `ShutdownHandler.__init__` installs:
`lambda *_: sys.exit(1)`. -/
def sigtermHandler : ExitEffect := ⟨1, true⟩

/-- An object constructed by the `Singleton` metaclass, recording which
class and which constructor arguments actually built it. -/
structure Instance where
  cls : Nat
  args : List Nat
deriving DecidableEq, Repr

/-- The `Singleton._instances` registry (`dict[type, Any]`, keyed here by a
numeric class identifier). -/
abbrev InstMap := List (Nat × Instance)

def lookupInst : InstMap → Nat → Option Instance
  | [], _ => none
  | p :: rest, cls => if p.1 = cls then some p.2 else lookupInst rest cls

/-- `Singleton.__call__`: construct on first call for a class, afterwards
return the cached instance ignoring the arguments. -/
def Singleton.call (m : InstMap) (cls : Nat) (args : List Nat) : InstMap × Instance :=
  match lookupInst m cls with
  | some i => (m, i)
  | none => (m ++ [(cls, ⟨cls, args⟩)], ⟨cls, args⟩)

/-- Run a sequence of constructor calls against the registry. -/
def Singleton.runCalls (m : InstMap) : List (Nat × List Nat) → InstMap
  | [] => m
  | c :: cs => Singleton.runCalls (Singleton.call m c.1 c.2).1 cs

/-- Numeric class identifiers for the two singleton classes of the server
(`Server` and `ShutdownHandler`). -/
def serverCls : Nat := 0

def shutdownHandlerCls : Nat := 1

/-- The pipe capacity bound `PIPE_MAX_BYTES`.

Modelled from the spec: `constants.py` is not under `src/`; the claims do
not depend on the value, any positive bound behaves identically. -/
def PIPE_MAX_BYTES : Nat := 2 ^ 26

/-- Total number of queued bytes of a stream's block list. -/
def sumLens (data : List (List Nat)) : Nat := (data.map List.length).sum

/-- The `pipe_full` helper of `server/util.py`:
`sum(len(i) for i in data) >= PIPE_MAX_BYTES`. -/
def pipe_full (data : List (List Nat)) : Bool :=
  decide (sumLens data ≥ PIPE_MAX_BYTES)

/-- Result of one upload write. -/
inductive UploadWrite
  | wait
  | accepted (newData : List (List Nat))
deriving DecidableEq, Repr

/-- The write path of the upload handler.

Modelled from the spec: the HTTP handler module is not under `src/`; per
the spec's words, a write that would exceed `PIPE_MAX_BYTES` is rejected
with the wait code, the queue left untouched, and otherwise the block is
appended to the queue. -/
def uploadAppend (data : List (List Nat)) (block : List Nat) : UploadWrite :=
  if sumLens data + block.length > PIPE_MAX_BYTES then .wait
  else .accepted (data ++ [block])

/-- Apply a sequence of block writes: each is appended when accepted and
dropped when rejected with the wait code (the writer would back off and
retry later). -/
def applyWrites (data : List (List Nat)) : List (List Nat) → List (List Nat)
  | [] => data
  | b :: bs =>
    applyWrites (match uploadAppend data b with
      | .wait => data
      | .accepted d => d) bs

/-- The upload status codes of the wire contract (shared `UploadEC`).

Modelled from the spec: the `shared` package is not under `src/`; values
are the spec's status-code table. -/
def UploadEC.illegal_version : Nat := 426

def UploadEC.wrong_version : Nat := 412

def UploadEC.too_big : Nat := 413

def UploadEC.forbidden : Nat := 403

def UploadEC.stream_id : Nat := 422

def UploadEC.locked : Nat := 423

def UploadEC.wait : Nat := 425

def UploadEC.conflict : Nat := 409

/-- Client-side errors raised by `_send_known_error` / `_send_block`. -/
inductive ClientErr
  | versionError
  | multipleClients
  | reportThis
  | channelLocked
  | runtimeError
deriving DecidableEq, Repr

/-- `_send_known_error` of `client/client/send.py`: map a known error
status code to the exception it raises; `none` when unknown. -/
def _send_known_error (code : Nat) : Option ClientErr :=
  if code = UploadEC.illegal_version then some .versionError
  else if code = UploadEC.conflict then some .multipleClients
  else if code = UploadEC.wrong_version ∨ code = UploadEC.too_big
      ∨ code = UploadEC.forbidden ∨ code = UploadEC.stream_id then some .reportThis
  else if code = UploadEC.locked then some .channelLocked
  else none

/-- `WAIT_DELAY_SEC` of `client/util.py` (0.25 seconds). -/
def WAIT_DELAY_SEC : ℚ := 1 / 4

/-- Cap on the backoff delay.

Modelled from the spec: `wait_delay_sec` lives in a client helper module
not under `src/`; the spec specifies `0.25 * 2^lvl`, capped, without
giving the cap's value, which none of the claims depend on. -/
def WAIT_DELAY_CAP : ℚ := 300

/-- `wait_delay_sec(lvl)`: exponential backoff delay, capped.

Modelled from the spec: `0.25 * 2^lvl` capped at `WAIT_DELAY_CAP`. -/
def wait_delay_sec (lvl : Nat) : ℚ :=
  min (WAIT_DELAY_SEC * 2 ^ lvl) WAIT_DELAY_CAP

/-- `requests`' `Response.ok`: true for status codes below 400. -/
def respOk (status : Nat) : Bool := status < 400

/-- Outcome of `_send_block` on a scripted sequence of server responses. -/
inductive SendOutcome
  | success (remaining : List Nat)
  | failure (e : ClientErr)
  | noResponse
deriving DecidableEq, Repr

/-- `_send_block` of `client/client/send.py`, driven by the list of status
codes the server answers with: return on ok; on the wait code sleep
`wait_delay_sec lvl` and retry with `lvl + 1`; otherwise raise the mapped
error (`RuntimeError` when unknown).  The first component accumulates the
sleeps performed. -/
def _send_block : List Nat → Nat → List ℚ → List ℚ × SendOutcome
  | [], _, sleeps => (sleeps, .noResponse)
  | status :: rest, lvl, sleeps =>
    if respOk status then (sleeps, .success rest)
    else if status = UploadEC.wait then
      _send_block rest (lvl + 1) (sleeps ++ [wait_delay_sec lvl])
    else (sleeps, .failure ((_send_known_error status).getD .runtimeError))

theorem lookupInst_append_some {m : InstMap} {cls : Nat} {i : Instance}
    (h : lookupInst m cls = some i) (xs : InstMap) :
    lookupInst (m ++ xs) cls = some i := by
  induction m with
  | nil => simp [lookupInst] at h
  | cons p rest ih =>
    by_cases hp : p.1 = cls
    · simpa [lookupInst, hp] using by simpa [lookupInst, hp] using h
    · simp only [lookupInst, hp, if_false, List.cons_append] at *
      exact ih h

theorem lookupInst_call_preserve {m : InstMap} {cls : Nat} {i : Instance}
    (h : lookupInst m cls = some i) (c : Nat) (a : List Nat) :
    lookupInst (Singleton.call m c a).1 cls = some i := by
  unfold Singleton.call
  cases hl : lookupInst m c with
  | some j => simpa using h
  | none => exact lookupInst_append_some h _

theorem runCalls_preserve {cls : Nat} {i : Instance} :
    ∀ (calls : List (Nat × List Nat)) (m : InstMap), lookupInst m cls = some i →
    lookupInst (Singleton.runCalls m calls) cls = some i := by
  intro calls
  induction calls with
  | nil => intro m h; exact h
  | cons c cs ih =>
    intro m h
    exact ih _ (lookupInst_call_preserve h c.1 c.2)

theorem Singleton.call_of_found {m : InstMap} {cls : Nat} {i : Instance}
    (h : lookupInst m cls = some i) (b : List Nat) : Singleton.call m cls b = (m, i) := by
  unfold Singleton.call
  rw [h]

theorem lookupInst_append_fresh {m : InstMap} {cls : Nat}
    (h : lookupInst m cls = none) (i : Instance) :
    lookupInst (m ++ [(cls, i)]) cls = some i := by
  induction m with
  | nil => simp [lookupInst]
  | cons p rest ih =>
    by_cases hp : p.1 = cls
    · simp [lookupInst, hp] at h
    · simp only [lookupInst, hp, if_false, List.cons_append] at *
      exact ih h

/-- A concrete stream with every field populated, used by witnesses. -/
def witStream : Stream := ⟨⟨8, [1, 0]⟩, true, 77, 5, some 3, [[1, 2], [3]], true, false, true⟩

/-- C3: a snapshot file whose leading version line parses strictly below
`MIN_SAVE_STATE_VERSION` is refused: `_load` takes the `return False` path
without constructing any stream, and `load` leaves the streams map empty. -/
theorem C3_version_gate (vb : List Nat) (v : Version) (rest : List Nat)
    (s : UnlockedState) (hnl : 10 ∉ vb) (hparse : verDec vb = some v)
    (hlt : verLt v MIN_SAVE_STATE_VERSION = true) (hs : s.streams = []) :
    _load (vb ++ 10 :: rest) = .ok none ∧
    UnlockedState.load s (some (vb ++ 10 :: rest)) = .ok { s with streams := [] } := by
  have h1 : _load (vb ++ 10 :: rest) = .ok none := by
    unfold _load
    rw [pyReadline_eq hnl]
    simp only [List.dropLast_concat, hparse, hlt, if_true]
  refine ⟨h1, ?_⟩
  unfold UnlockedState.load
  rw [if_neg (by simp [hs])]
  simp only [h1]

/-- C3 witness: a concrete `8.0.0` snapshot is refused (the minimum is
`8.1.0`) and the loaded state is empty. -/
theorem C3_version_gate_witness :
    _load (lit "8.0.0" ++ 10 :: [53, 10]) = .ok none ∧
    UnlockedState.load UnlockedState.init (some (lit "8.0.0" ++ 10 :: [53, 10]))
      = .ok ⟨[], false, Stats.init⟩ :=
  C3_version_gate (lit "8.0.0") ⟨8, [0, 0]⟩ [53, 10] UnlockedState.init
    (by decide) (by decide) (by decide) rfl

/-- C5: `State.__enter__` raises `ServerShutdown` exactly when the shutdown
flag is set; the failure path releases the mutex it just acquired (the
resulting lock count equals the original), and after a successful
acquisition `State.__exit__` — which runs on normal and exceptional body
exit alike — restores the lock count. -/
theorem C5_enter_exit (st : StateW) :
    match State.enter st with
    | .error st' => st.state.shutdown = true ∧ st'.lock = st.lock ∧ st' = st
    | .ok (st1, s) => st.state.shutdown = false ∧ s = st.state
        ∧ st1.lock = st.lock + 1 ∧ (State.exit st1).lock = st.lock
        ∧ State.exit st1 = st := by
  obtain ⟨lk, s0⟩ := st
  unfold State.enter State.exit
  by_cases h : s0.shutdown
  · simp [h]
  · simp [h]

/-- C6: `UnlockedState.save` refuses whenever the shutdown flag is clear;
the shutdown handler's first invocation flips the flag and persists exactly
one snapshot, and an invocation on an already shut-down state raises
`ServerShutdown` instead of saving (via `State.__enter__`); in particular
a second invocation after the first one raises. -/
theorem C6_shutdown_guard (st : StateW) :
    (∀ u : UnlockedState, u.shutdown = false → u.save = .error .notShutdown) ∧
    (st.state.shutdown = false →
      ShutdownHandler.shutdownRun st =
        .ok (⟨st.lock, { st.state with shutdown := true }⟩, saveBytes st.state.streams)) ∧
    (st.state.shutdown = true →
      ShutdownHandler.shutdownRun st = .error (.serverShutdown, st)) ∧
    (st.state.shutdown = false →
      ShutdownHandler.shutdownRun ⟨st.lock, { st.state with shutdown := true }⟩
        = .error (.serverShutdown, ⟨st.lock, { st.state with shutdown := true }⟩)) := by
  obtain ⟨lk, s0⟩ := st
  refine ⟨?_, ?_, ?_, ?_⟩
  · intro u hu
    unfold UnlockedState.save
    rw [if_pos (by simp [hu])]
  · intro h
    dsimp only at h
    simp [ShutdownHandler.shutdownRun, State.enter, State.exit, UnlockedState.save, h]
  · intro h
    dsimp only at h
    simp [ShutdownHandler.shutdownRun, State.enter, h]
  · intro _
    simp [ShutdownHandler.shutdownRun, State.enter]

/-- C6 witness: on a concrete fresh state the first shutdown invocation
saves once and flips the flag; invoking the handler on the resulting
shut-down state raises `ServerShutdown`. -/
theorem C6_shutdown_guard_witness :
    ShutdownHandler.shutdownRun ⟨0, ⟨[], false, Stats.init⟩⟩
      = .ok (⟨0, ⟨[], true, Stats.init⟩⟩, saveBytes []) ∧
    ShutdownHandler.shutdownRun ⟨0, ⟨[], true, Stats.init⟩⟩
      = .error (.serverShutdown, ⟨0, ⟨[], true, Stats.init⟩⟩) :=
  ⟨(C6_shutdown_guard ⟨0, ⟨[], false, Stats.init⟩⟩).2.1 rfl,
   (C6_shutdown_guard ⟨0, ⟨[], true, Stats.init⟩⟩).2.2.1 rfl⟩

/-- C7 counterexample: the claim says SIGTERM maps to a normal exit with
process exit code 0, but the installed handler is
`lambda *_: sys.exit(1)` — exit code 1. -/
theorem C7_sigterm_counterexample : ¬ (sigtermHandler.code = 0) := by decide

/-- C7 amended: the SIGTERM handler calls `sys.exit(1)`, a normal
interpreter exit that runs the registered exit hooks, but the process exit
code is 1, not 0. -/
theorem C7_sigterm_exit : sigtermHandler.code = 1 ∧ sigtermHandler.runsExitHooks = true := by
  decide

/-- C9: classes with the `Singleton` metaclass are constructed at most
once: the first call builds the instance from its arguments, and any later
call — after any other singleton constructions, with any arguments —
returns that same first instance and leaves the registry unchanged
(the underlying constructor is not invoked again). -/
theorem C9_singleton (m : InstMap) (cls : Nat) (a : List Nat)
    (hfresh : lookupInst m cls = none) :
    (Singleton.call m cls a).2 = ⟨cls, a⟩ ∧
    ∀ (calls : List (Nat × List Nat)) (b : List Nat),
      (Singleton.call (Singleton.runCalls (Singleton.call m cls a).1 calls) cls b).2
        = ⟨cls, a⟩ ∧
      (Singleton.call (Singleton.runCalls (Singleton.call m cls a).1 calls) cls b).1
        = Singleton.runCalls (Singleton.call m cls a).1 calls := by
  have hcall : Singleton.call m cls a = (m ++ [(cls, ⟨cls, a⟩)], ⟨cls, a⟩) := by
    simp [Singleton.call, hfresh]
  refine ⟨by rw [hcall], ?_⟩
  intro calls b
  have hm1 : lookupInst (Singleton.call m cls a).1 cls = some ⟨cls, a⟩ := by
    rw [hcall]
    exact lookupInst_append_fresh hfresh _
  have hrun := runCalls_preserve calls _ hm1
  constructor
  · rw [Singleton.call_of_found hrun b]
  · rw [Singleton.call_of_found hrun b]

/-- C9 witness: `Server` (class id 0) constructed with arguments `[1]`;
after constructing `ShutdownHandler` (class id 1) and calling `Server()`
again with different arguments `[3]`, the original instance is returned
and nothing new is constructed. -/
theorem C9_singleton_witness :
    (Singleton.call [] serverCls [1]).2 = ⟨serverCls, [1]⟩ ∧
    (Singleton.call (Singleton.runCalls (Singleton.call [] serverCls [1]).1
        [(shutdownHandlerCls, [2])]) serverCls [3]).2 = ⟨serverCls, [1]⟩ ∧
    (Singleton.call (Singleton.runCalls (Singleton.call [] serverCls [1]).1
        [(shutdownHandlerCls, [2])]) serverCls [3]).1
      = Singleton.runCalls (Singleton.call [] serverCls [1]).1 [(shutdownHandlerCls, [2])] :=
  ⟨(C9_singleton [] serverCls [1] (by decide)).1,
   ((C9_singleton [] serverCls [1] (by decide)).2 [(shutdownHandlerCls, [2])] [3]).1,
   ((C9_singleton [] serverCls [1] (by decide)).2 [(shutdownHandlerCls, [2])] [3]).2⟩

/-- C10: `UnlockedState.load` on a non-empty streams map raises
`RuntimeError` without touching the file (the result is the same for every
file argument) and leaves the existing state unchanged. -/
theorem C10_load_requires_empty (s : UnlockedState) (file : Option (List Nat))
    (h : s.streams ≠ []) :
    UnlockedState.load s file = .error (.runtimeError, s) := by
  unfold UnlockedState.load
  rw [if_pos h]

/-- C10 witness: loading on top of a concrete one-stream state raises and
preserves it, whether or not a file is supplied. -/
theorem C10_load_requires_empty_witness :
    UnlockedState.load ⟨[([97], witStream)], false, Stats.init⟩ (some [1, 2, 3])
      = .error (.runtimeError, ⟨[([97], witStream)], false, Stats.init⟩) ∧
    UnlockedState.load ⟨[([97], witStream)], false, Stats.init⟩ none
      = .error (.runtimeError, ⟨[([97], witStream)], false, Stats.init⟩) :=
  ⟨C10_load_requires_empty ⟨[([97], witStream)], false, Stats.init⟩ (some [1, 2, 3])
      (by decide),
   C10_load_requires_empty ⟨[([97], witStream)], false, Stats.init⟩ none (by decide)⟩

/-- A concrete stream whose channel name will contain a space in the C1
counterexample. -/
def spaceStream : Stream := ⟨⟨8, [1, 0]⟩, false, 1, 2, none, [[7]], false, false, false⟩

set_option maxRecDepth 100000

/-- C1 counterexample: with a stream whose channel name contains a space
(`"a b"`), saving and re-loading does not reproduce the state — the header
line `"a b 1 {…}"` splits wrongly on spaces and `load` raises instead of
returning the saved map (claimed for arbitrary names). -/
theorem C1_counterexample :
    (⟨[(lit "a b", spaceStream)], true, Stats.init⟩ : UnlockedState).save
      = .ok (saveBytes [(lit "a b", spaceStream)]) ∧
    UnlockedState.init.load (some (saveBytes [(lit "a b", spaceStream)]))
      = .error (.parse .badMeta, ⟨[], false, Stats.init⟩) := by
  constructor
  · decide
  · decide

/-- C1 amended: for states whose stream names contain no space byte (and,
as for any Python dict, are distinct), saving under a set shutdown flag and
loading into a fresh state reproduces every stream — name, version,
encrypted flag, expire, stream id, reader id, final, locked,
upload-complete and the full ordered block list — while the loaded stats
are freshly reset (zero counters, one zeroed entry per channel). -/
theorem C1_save_load_roundtrip (s : UnlockedState)
    (hsd : s.shutdown = true)
    (hname : ∀ p ∈ s.streams, 32 ∉ p.1)
    (hnd : (s.streams.map Prod.fst).Nodup) :
    s.save = .ok (saveBytes s.streams) ∧
    UnlockedState.init.load (some (saveBytes s.streams))
      = .ok ⟨s.streams, false, Stats.freshFor (s.streams.map Prod.fst)⟩ := by
  constructor
  · unfold UnlockedState.save
    rw [if_neg (by simp [hsd])]
  · unfold UnlockedState.load
    rw [if_neg (by simp [UnlockedState.init])]
    simp only [load_saveBytes s.streams hname, insertAll_nil hnd]
    rfl

/-- C1 witness: a concrete one-stream state (every field populated) makes
the round trip and comes back identical with fresh stats. -/
theorem C1_save_load_roundtrip_witness :
    (⟨[(lit "abc", witStream)], true, Stats.init⟩ : UnlockedState).save
      = .ok (saveBytes [(lit "abc", witStream)]) ∧
    UnlockedState.init.load (some (saveBytes [(lit "abc", witStream)]))
      = .ok ⟨[(lit "abc", witStream)], false, Stats.freshFor [lit "abc"]⟩ :=
  C1_save_load_roundtrip ⟨[(lit "abc", witStream)], true, Stats.init⟩ rfl
    (by decide) (by decide)

/-- C2 counterexample: on a file with a valid current version line whose
body is malformed (`"xx"` where a length prefix is expected), `load` does
not return normally — the `ValueError` from `int()` propagates out of
`load` (there is no exception handler around `_load`). -/
theorem C2_counterexample :
    UnlockedState.init.load (some (verEnc version ++ [10] ++ [120, 120, 10]))
      = .error (.parse .intParse, ⟨[], false, Stats.init⟩) := by
  decide

/-- C2 amended: `load` returns normally with an empty map only when the
file is missing or its version line parses below the minimum; for other
malformed inputs the parse exception propagates out of `load`, leaving in
the streams map exactly the streams parsed before the failure (none when
the failure precedes the first stream). -/
theorem C2_load_failure_modes (s : UnlockedState) (hs : s.streams = []) :
    UnlockedState.load s none = .ok s ∧
    (∀ (vb rest : List Nat) (v : Version), 10 ∉ vb → verDec vb = some v →
      verLt v MIN_SAVE_STATE_VERSION = true →
      UnlockedState.load s (some (vb ++ 10 :: rest)) = .ok { s with streams := [] }) ∧
    (∀ (f : List Nat) (e : LoadErr) (part : StreamMap), _load f = .error (e, part) →
      UnlockedState.load s (some f) = .error (.parse e, { s with streams := part })) := by
  refine ⟨?_, ?_, ?_⟩
  · unfold UnlockedState.load
    rw [if_neg (by simp [hs])]
  · intro vb rest v hnl hparse hlt
    exact (C3_version_gate vb v rest s hnl hparse hlt hs).2
  · intro f e part hload
    unfold UnlockedState.load
    rw [if_neg (by simp [hs])]
    simp only [hload]

/-- C2 witness: the missing-file branch on a fresh state, and the
propagation branch at the concrete malformed file of the counterexample. -/
theorem C2_load_failure_modes_witness :
    UnlockedState.load UnlockedState.init none = .ok UnlockedState.init ∧
    UnlockedState.load UnlockedState.init (some (verEnc version ++ [10] ++ [120, 120, 10]))
      = .error (.parse .intParse, ⟨[], false, Stats.init⟩) :=
  ⟨(C2_load_failure_modes UnlockedState.init rfl).1,
   (C2_load_failure_modes UnlockedState.init rfl).2.2
     (verEnc version ++ [10] ++ [120, 120, 10]) .intParse [] (by decide)⟩

/-- C4: a write is rejected with the wait code exactly when appending the
block would push the queued total above `PIPE_MAX_BYTES` (the queue is
then left untouched); in particular a queue `pipe_full` already reports
full rejects every non-empty write; every accepted write appends the
block and ends with the total still at most `PIPE_MAX_BYTES`, so any
sequence of writes preserves the bound at every observable moment. -/
theorem C4_capacity (data : List (List Nat)) (block : List Nat) :
    (uploadAppend data block = .wait ↔
      sumLens data + block.length > PIPE_MAX_BYTES) ∧
    (pipe_full data = true → block ≠ [] → uploadAppend data block = .wait) ∧
    (uploadAppend data block ≠ .wait →
      uploadAppend data block = .accepted (data ++ [block]) ∧
      sumLens (data ++ [block]) ≤ PIPE_MAX_BYTES) ∧
    (sumLens data ≤ PIPE_MAX_BYTES →
      ∀ blocks : List (List Nat), sumLens (applyWrites data blocks) ≤ PIPE_MAX_BYTES) := by
  have hacc : ∀ (d : List (List Nat)) (b : List Nat), uploadAppend d b ≠ .wait →
      uploadAppend d b = .accepted (d ++ [b]) ∧ sumLens (d ++ [b]) ≤ PIPE_MAX_BYTES := by
    intro d b hne
    unfold uploadAppend at *
    by_cases h : sumLens d + b.length > PIPE_MAX_BYTES
    · exact absurd (by simp [h]) hne
    · have hsum : sumLens (d ++ [b]) = sumLens d + b.length := by simp [sumLens]
      exact ⟨by simp [h], by omega⟩
  refine ⟨?_, ?_, hacc data block, ?_⟩
  · unfold uploadAppend
    by_cases h : sumLens data + block.length > PIPE_MAX_BYTES <;> simp [h]
  · intro hfull hb
    have hge : sumLens data ≥ PIPE_MAX_BYTES := by
      unfold pipe_full at hfull
      simpa using hfull
    have hlen : 1 ≤ block.length := by
      cases block with
      | nil => exact absurd rfl hb
      | cons x xs => simp
    unfold uploadAppend
    rw [if_pos (by omega)]
  · intro hle blocks
    induction blocks generalizing data with
    | nil => exact hle
    | cons b bs ih =>
      cases hw : uploadAppend data b with
      | wait =>
        rw [show applyWrites data (b :: bs) = applyWrites data bs by
          simp [applyWrites, hw]]
        exact ih data hle
      | accepted d =>
        have h2 := hacc data b (by simp [hw])
        rw [hw] at h2
        have hd : d = data ++ [b] := by simpa using h2.1
        rw [show applyWrites data (b :: bs) = applyWrites d bs by
          simp [applyWrites, hw], hd]
        exact ih (data ++ [b]) h2.2

/-- C4 witness: on an empty queue a one-byte write is accepted, ending at
or below the bound, and a concrete write sequence keeps the bound. -/
theorem C4_capacity_witness :
    uploadAppend [] [7] = .accepted [[7]] ∧
    sumLens [[7]] ≤ PIPE_MAX_BYTES ∧
    sumLens (applyWrites [] [[7], [8, 9]]) ≤ PIPE_MAX_BYTES := by
  have h := C4_capacity [] [7]
  have h3 := h.2.2.1 (by decide)
  exact ⟨h3.1, h3.2, h.2.2.2 (by decide) [[7], [8, 9]]⟩

/-- C8: on the wait code (425) the client writer sleeps `wait_delay_sec
lvl = min (0.25 * 2^lvl) cap` and retries the same block at level
`lvl + 1`; any other non-ok status raises the error
`_send_known_error` maps it to (`RuntimeError` for unknown codes) without
retrying. -/
theorem C8_send_backoff (rest : List Nat) (lvl : Nat) (sleeps : List ℚ) :
    _send_block (UploadEC.wait :: rest) lvl sleeps
      = _send_block rest (lvl + 1) (sleeps ++ [wait_delay_sec lvl]) ∧
    wait_delay_sec lvl = min (WAIT_DELAY_SEC * 2 ^ lvl) WAIT_DELAY_CAP ∧
    (∀ status, respOk status = false → status ≠ UploadEC.wait →
      _send_block (status :: rest) lvl sleeps
        = (sleeps, .failure ((_send_known_error status).getD .runtimeError))) := by
  refine ⟨?_, rfl, ?_⟩
  · show _send_block (425 :: rest) lvl sleeps = _
    rw [_send_block]
    rw [show respOk 425 = false from rfl]
    simp [UploadEC.wait]
  · intro status h1 h2
    rw [_send_block, h1]
    simp [h2]

/-- C8 witness: a wait answer followed by a conflict answer — one backoff
sleep at level 0, then `MultipleClients` raised with no further retry. -/
theorem C8_send_backoff_witness :
    _send_block [UploadEC.wait, UploadEC.conflict] 0 []
      = ([wait_delay_sec 0], .failure .multipleClients) := by
  rw [(C8_send_backoff [UploadEC.conflict] 0 []).1]
  rw [(C8_send_backoff [] 1 ([] ++ [wait_delay_sec 0])).2.2 UploadEC.conflict
    (by decide) (by decide)]
  simp [_send_known_error, UploadEC.conflict, UploadEC.illegal_version]

end RPipe
